import Mathlib

/-!
# Line patcher and deployment pipeline

A shallow embedding of `file_manager/file_manager.go` and of the
materialisation and reconciliation steps of `generator/generator.go`.

Modelling conventions

* A Go `string` is a sequence of bytes: `Text = List Byte`.
* The compiled regular expression is used only through `MatchString` on one
  line, so it is a function `Text → Bool`.
* The file named by `filename` is an existing, writable regular file whose
  state is its byte content.
* Calls that leave the program (`go fmt`, `os.Mkdir`, `os.Create`, ...) are
  given by their outcome, passed in as data.
* The register package is not among the sources: its `Save` follows the
  specification of the ledger.
-/

namespace file_manager

/-! ## Data model -/

/-- One byte of a Go string. -/
abbrev Byte := Fin 256

/-- Go `string`: a byte sequence. -/
abbrev Text := List Byte

/-- The separator of `strings.Split(_, "\n")` and the byte written by
`builder.WriteString("\n")`. -/
def nl : Byte := 10

/-- Scope of a patch: `const ( File Scope = iota; Decl )`. -/
inductive Scope where
  | File
  | Decl
  deriving DecidableEq, Repr

/-- Error numbers behind the errors of the `os` calls. -/
inductive Errno where
  | EEXIST
  | ENOENT
  | EACCES
  | other (code : Nat)
  deriving DecidableEq, Repr

/-- Go `error` values met by the code: `errors.New(msg)`, the non-nil result
of `exec.Cmd.Run` (exit status or start failure) and the `*os.PathError` of a
failed `os` call. -/
inductive GoError where
  | New (msg : String)
  | Run (status : Nat)
  | Path (errno : Errno)
  deriving DecidableEq, Repr

/-- Model of `os.IsNotExist(err)`: true exactly for an error that reports a
missing file or directory; false for nil and for every other error. -/
def IsNotExist : Option GoError → Bool
  | some (GoError.Path Errno.ENOENT) => true
  | _ => false

/-- The error of `AddToFile` when no insertion point was recorded. -/
def errNoSpace : GoError := GoError.New "No space was found in this file "

/-! ## Library functions used by `AddToFile` -/

/-- Model of `strings.Split(s, "\n")`: the pieces of `s` between newline
bytes; a string without newline (the empty one included) gives one piece. -/
def Split : Text → List Text
  | [] => [[]]
  | b :: bs =>
    if b = nl then [] :: Split bs
    else
      match Split bs with
      | [] => [[b]]
      | l :: ls => (b :: l) :: ls

/-- An `*os.File` opened by `os.Open`: the bytes of the file and the read
offset of the descriptor. -/
structure OpenFile where
  bytes : Text
  offset : Nat
  deriving DecidableEq, Repr

/-- Result of one `file.Read(data)`: the descriptor, the buffer, the count and
whether the error is `io.EOF` (any other result here is a nil error). -/
structure ReadResult where
  file : OpenFile
  data : Text
  n : Nat
  eof : Bool
  deriving DecidableEq, Repr

/-- The most bytes one `Read` transfers: `maxRW = 1 << 30` of
`internal/poll`, to which `(*FD).Read` cuts the buffer of a file. -/
def maxRW : Nat := 1073741824

/-- Model of `(*os.File).Read(b)` on a regular file.

* `len(b) == 0`: returns `0, nil` at once, whatever the offset (the
  `io.Reader` contract; `internal/poll.(*FD).Read` returns before the system
  call "if the caller wanted a zero byte read").
* offset at or past the end: returns `0, io.EOF`, buffer untouched.
* otherwise: copies the bytes available from the offset, up to `len(b)` and
  up to `maxRW`, to the start of `b`, advances the offset, returns the count
  and nil. -/
def OpenFile.Read (f : OpenFile) (b : Text) : ReadResult :=
  if b.length = 0 then
    { file := f, data := b, n := 0, eof := false }
  else if f.bytes.length ≤ f.offset then
    { file := f, data := b, n := 0, eof := true }
  else
    let chunk := (f.bytes.drop f.offset).take (min b.length maxRW)
    { file := { f with offset := f.offset + chunk.length },
      data := chunk ++ b.drop chunk.length,
      n := chunk.length,
      eof := false }

/-- The loop of `read`: `for { _, err := file.Read(data); if err == io.EOF
{ break } }`, one iteration per unit of fuel; `none` when the fuel runs out
before `io.EOF` is seen. -/
def readLoop : Nat → OpenFile → Text → Option Text
  | 0, _, _ => none
  | fuel + 1, file, data =>
    let r := file.Read data
    if r.eof then some r.data else readLoop fuel r.file r.data

/-- Model of `read(filename)` on an existing file with content `content`:
allocate `info.Size()` zero bytes, run the read loop, return `string(data)`. -/
def read (fuel : Nat) (content : Text) : Option Text :=
  readLoop fuel { bytes := content, offset := 0 } (List.replicate content.length 0)

/-- Model of `write(filename, content)`: `os.OpenFile(filename, os.O_WRONLY, _)`
opens at offset 0 without `O_TRUNC` or `O_APPEND`, so the bytes of `content`
replace the first `len(content)` bytes of the file and the rest of the old
file stays. -/
def write (old content : Text) : Text :=
  content ++ old.drop content.length

/-- Outcome of the formatter process `go fmt file`: the content it leaves in
the file and the error of `cmd.Run()`. -/
structure FormatResult where
  file : Text
  err : Option GoError
  deriving DecidableEq, Repr

/-- The formatter as seen from the program: a function of the file content. -/
abbrev Formatter := Text → FormatResult

/-- Model of `format(file)`: run the formatter on the file. -/
def format (gofmt : Formatter) (file : Text) : FormatResult :=
  gofmt file

/-! ## `hasPos`, `positions`, `AddToFile` -/

/-- Source `hasPos`: linear search of `current` among `positions`. -/
def hasPos : List Nat → Nat → Bool
  | [], _ => false
  | position :: rest, current =>
    if current = position then true else hasPos rest current

/-- The loop of `positions`: index `i`, remaining lines, positions so far. -/
def positionsLoop (exp : Text → Bool) : Nat → List Text → List Nat → List Nat
  | _, [], acc => acc
  | i, s :: rest, acc =>
    positionsLoop exp (i + 1) rest (if exp s then acc ++ [i + 1] else acc)

/-- Source `positions`: `i+1` for every index `i` whose line matches. -/
def positions (data : List Text) (exp : Text → Bool) : List Nat :=
  positionsLoop exp 0 data []

/-- The rebuild loop of the `scope != File` branch: index `i`, remaining
lines, builder content. -/
def declLoop (pos : List Nat) (needle : Text) : Nat → List Text → Text → Text
  | _, [], builder => builder
  | i, s :: rest, builder =>
    let b1 := if i > 0 then builder ++ [nl] else builder
    let b2 := if hasPos pos i then b1 ++ (needle ++ [nl]) else b1
    declLoop pos needle (i + 1) rest (b2 ++ s)

/-- The rebuild loop of the `File` branch: index `k`, remaining lines,
builder content. -/
def fileLoop (exp : Text → Bool) (needle : Text) : Nat → List Text → Text → Text
  | _, [], builder => builder
  | k, s :: rest, builder =>
    let b1 := if k > 0 then builder ++ [nl] else builder
    let b2 := if exp s then b1 ++ needle else b1
    fileLoop exp needle (k + 1) rest (b2 ++ s)

/-- What a call of `AddToFile` that returns has done. -/
structure Outcome where
  -- the returned error (`none` is nil)
  err : Option GoError
  -- the argument of the `write` call, when one was made
  written : Option Text
  -- the file content once the `write` step is over (before `format`)
  afterWrite : Text
  -- whether `format` was called
  formatted : Bool
  -- the file content when `AddToFile` returns
  file : Text
  deriving DecidableEq, Repr

/-- Source `AddToFile(filename, exp, needle, scope)` on a file with content
`content`; `none` when `read` does not return within `fuel` iterations. -/
def AddToFile (fuel : Nat) (gofmt : Formatter) (content : Text)
    (exp : Text → Bool) (needle : Text) (scope : Scope) : Option Outcome :=
  match read fuel content with
  | none => none
  | some text =>
    let data := Split text
    if scope ≠ Scope.File then
      let pos := positions data exp
      if pos.length = 0 then
        some { err := some errNoSpace, written := none, afterWrite := content,
               formatted := false, file := content }
      else
        let out := declLoop pos needle 0 data []
        let disk := write content out
        let r := format gofmt disk
        some { err := r.err, written := some out, afterWrite := disk,
               formatted := true, file := r.file }
    else
      let out := fileLoop exp needle 0 data []
      let disk := write content out
      let r := format gofmt disk
      some { err := r.err, written := some out, afterWrite := disk,
             formatted := true, file := r.file }

/-! ## Specification-side vocabulary -/

/-- Counterpart of `strings.Join(lines, "\n")`: the lines with one newline
byte between neighbours. -/
def joinNl : List Text → Text
  | [] => []
  | [l] => l
  | l :: l' :: ls => l ++ nl :: joinNl (l' :: ls)

/-- A text without newline byte. -/
def NewlineFree (t : Text) : Prop := nl ∉ t

/-- Line `j` of the File-scope result as the specification words it: the
snippet followed by the line when the pattern matches, the line otherwise. -/
def patchedLine (exp : Text → Bool) (needle : Text) (l : Text) : Text :=
  if exp l then needle ++ l else l

/-- Insertion point in the specification's words: `k ≥ 1` and line `k-1`
matches. -/
def insertionPoint (exp : Text → Bool) (lines : List Text) (k : Nat) : Bool :=
  decide (1 ≤ k) &&
    match lines[k - 1]? with
    | some l => exp l
    | none => false

/-- The Decl-scope sequence by recursion on the lines, used in the proofs:
`prev` tells whether the line before the current one matched. -/
def emit (exp : Text → Bool) (needle : Text) : Bool → List Text → List Text
  | _, [] => []
  | prev, s :: rest => (if prev then [needle, s] else [s]) ++ emit exp needle (exp s) rest

/-- The Decl-scope result in the specification's words: visit `k = 0..n-1`,
emit the snippet as a line of its own before line `k` exactly when `k` is an
insertion point, then emit line `k`. -/
def declSequence (exp : Text → Bool) (needle : Text) (lines : List Text) : List Text :=
  ((List.range lines.length).map fun k =>
    (if insertionPoint exp lines k then [needle] else []) ++ [lines.getD k []]).flatten

/-- The lines after the first, each behind its newline byte (used in the
proofs). -/
def glue : List Text → Text
  | [] => []
  | l :: ls => nl :: l ++ glue ls

/-! ## `createBaseDirectories` and `Deploy` -/

/-- Source `createBaseDirectories`: three `os.Mkdir` calls in a row, each
followed by `err != nil && os.IsNotExist(err)` and a return of `err` when
that holds. `Mkdir` gives the result of `os.Mkdir` on a path. -/
def createBaseDirectories (Mkdir : String → Option GoError) (DatabaseDir : String) :
    Option GoError :=
  let general := DatabaseDir ++ "/general"
  let err := Mkdir general
  if err ≠ none ∧ IsNotExist err = true then err
  else
    let storages := DatabaseDir ++ "/storages"
    let err := Mkdir storages
    if err ≠ none ∧ IsNotExist err = true then err
    else
      let database := DatabaseDir ++ "/general/db"
      let err := Mkdir database
      if err ≠ none ∧ IsNotExist err = true then err
      else none

/-- What a call of `Deploy` has done: the returned error and whether
`moveModules` (the module copy) and `createFiles` (the file writes) ran. -/
structure Deployment where
  err : Option GoError
  modules : Bool
  files : Bool
  deriving DecidableEq, Repr

/-- Source `Deploy`: `createBaseDirectories`, then `moveModules`, then
`createFiles`, returning at the first error. The last two are given by the
error they return. -/
def Deploy (Mkdir : String → Option GoError) (DatabaseDir : String)
    (moveModules createFiles : Option GoError) : Deployment :=
  match createBaseDirectories Mkdir DatabaseDir with
  | some err => { err := some err, modules := false, files := false }
  | none =>
    match moveModules with
    | some err => { err := some err, modules := true, files := false }
    | none =>
      match createFiles with
      | some err => { err := some err, modules := true, files := true }
      | none => { err := none, modules := true, files := true }

end file_manager

namespace generator

open file_manager (GoError Errno)

/-! ## `Generate`: materialisation, ledger and orphan removal -/

/-- A generated file, `_go.File`, with the fields `Generate` reads. -/
structure File where
  Owner : String
  Path : String
  Name : String
  Src : String
  deriving DecidableEq, Repr

/-- Results of the `os` calls `Generate` makes for one file: whether
`os.Stat(file.Path)` reports a missing directory, and the errors of
`os.Mkdir`, `os.Create` and `f.Write` (`none` is nil). -/
structure Calls where
  statNotExist : Bool
  mkdir : Option GoError
  create : Option GoError
  write : Option GoError
  deriving DecidableEq, Repr

/-- The sections of a run: `parsing`, `validating`, `templating`, `register`. -/
inductive genSection where
  | parsing
  | validating
  | templating
  | register
  deriving DecidableEq, Repr

/-- Source `processError`, a `map[genSection]error`. -/
abbrev processError := genSection → Option GoError

/-- Assignment `pErr[section] = err`. -/
def processError.set (pErr : processError) (sec : genSection) (err : GoError) : processError :=
  fun s => if s = sec then some err else pErr s

/-- `rObj.Entistor`, a `map[string]string` from owner to path. -/
abbrev Entistor := String → Option String

/-- Assignment `Entistor[owner] = path`. -/
def Entistor.set (m : Entistor) (owner path : String) : Entistor :=
  fun o => if o = owner then some path else m o

/-- State of `Generate` while it runs: the ledger object, the collected
errors, the files whose `f.Write` succeeded and the paths handed to
`os.RemoveAll`. -/
structure State where
  Entistor : Entistor
  processError : processError
  written : List String
  removed : List String

/-- One iteration of the loop over `template.Create()`. -/
def materialize (st : State) (file : File) (c : Calls) : State :=
  let st1 : State :=
    if c.statNotExist then
      match c.mkdir with
      | some err => { st with processError := st.processError.set genSection.templating err }
      | none => st
    else st
  match c.create with
  | none =>
    let st2 : State := { st1 with Entistor := st1.Entistor.set file.Owner file.Path }
    match c.write with
    | some err => { st2 with processError := st2.processError.set genSection.templating err }
    | none => { st2 with written := st2.written ++ [file.Path ++ "/" ++ file.Name] }
  | some err => { st1 with processError := st1.processError.set genSection.templating err }

/-- The loop `for _, file := range template.Create()`. -/
def materializeAll : State → List (File × Calls) → State
  | st, [] => st
  | st, (file, c) :: rest => materializeAll (materialize st file c) rest

/-- The loop `for _, del := range r.Deleted { _ = os.RemoveAll(del) }`. -/
def removeAll : State → List String → State
  | st, [] => st
  | st, del :: rest => removeAll { st with removed := st.removed ++ [del] } rest

/-- Source `errorConverting`: nil exactly when no section holds an error;
the text of the error lists the sections that hold one. -/
def errorConverting (pErr : processError) : Option (List genSection) :=
  let held := [genSection.parsing, genSection.validating, genSection.templating,
    genSection.register].filter fun s => (pErr s).isSome
  if held = [] then none else some held

/-- The ledger of the previous run as the register loaded it: pairs of an
owner and a path recorded for that owner. -/
abbrev Ledger := List (String × String)

/-- Modelled from the spec: the diff rule of the register's `Save` (the
register package is not under `src/`): every path of the old ledger that the
current run does not record under the same owner is an orphan. -/
def orphans (old : Ledger) (current : Entistor) : List String :=
  (old.filter fun op => decide (current op.1 ≠ some op.2)).map fun op => op.2

/-- What a call of `r.Save()` leaves: the returned error and the field
`r.Deleted`. -/
structure Saved where
  err : Option GoError
  Deleted : List String
  deriving DecidableEq, Repr

/-- Modelled from the spec: `Save` of the register package, which is not
under `src/`. It computes the orphans by the diff rule and persists the ledger
of the current run as the new baseline; when persisting fails it returns the
error and reports no orphan as actionable, otherwise it returns nil and
reports the orphans, which `Generate` reads from `r.Deleted`. `persist` is the
result of writing the ledger to storage. -/
def Save (old : Ledger) (current : Entistor) (persist : Option GoError) : Saved :=
  match persist with
  | some err => { err := some err, Deleted := [] }
  | none => { err := none, Deleted := orphans old current }

/-- What the calls into the other packages give in one run: the error of
`reg.NewRegister`, of `parser.Parse`, of `validator.StructsValidation`, the
files of `template.Create()` with the results of their `os` calls, the ledger
the register loaded, the result of persisting the new ledger, and the setting
`AutoDelete`. -/
structure Run where
  newRegister : Option GoError
  parse : Option GoError
  validation : Option GoError
  files : List (File × Calls)
  ledger : Ledger
  persist : Option GoError
  AutoDelete : Bool

/-- The state of `Generate` when the loop over the files starts. -/
def beforeLoop (run : Run) : State :=
  let pe0 : processError := fun _ => none
  let pe1 := match run.newRegister with
    | some e => pe0.set genSection.register e
    | none => pe0
  let pe2 := match run.parse with
    | some err => pe1.set genSection.parsing err
    | none => pe1
  let pe3 := match run.validation with
    | some err => pe2.set genSection.validating err
    | none => pe2
  { Entistor := fun _ => none, processError := pe3, written := [], removed := [] }

/-- The state of `Generate` after the loop over the files. -/
def afterLoop (run : Run) : State :=
  materializeAll (beforeLoop run) run.files

/-- Source `Generate`, from the loaded settings on: the final state and the
returned error. `r.AddObject(*rObj)` hands the ledger object of the run to the
register, `r.Save()` follows, and `r.Deleted` is read after it. -/
def Generate (run : Run) : State × Option (List genSection) :=
  let st := afterLoop run
  let r := Save run.ledger st.Entistor run.persist
  let st1 : State :=
    match r.err with
    | some err => { st with processError := st.processError.set genSection.register err }
    | none => st
  let st2 := if run.AutoDelete then removeAll st1 r.Deleted else st1
  (st2, errorConverting st2.processError)

/-- The last file of `owner` whose `os.Create` succeeded, if any. -/
def lastCreated (owner : String) (files : List (File × Calls)) : Option File :=
  ((files.filter fun fc => decide (fc.1.Owner = owner) && fc.2.create.isNone).getLast?).map
    fun fc => fc.1

/-- The files whose `os.Create` and `f.Write` both succeeded, as paths. -/
def writtenFiles (files : List (File × Calls)) : List String :=
  (files.filter fun fc => fc.2.create.isNone && fc.2.write.isNone).map
    fun fc => fc.1.Path ++ "/" ++ fc.1.Name

end generator

namespace file_manager

/-! ## Facts about `Split` and `joinNl` -/

theorem Split_ne_nil (t : Text) : Split t ≠ [] := by
  cases t with
  | nil => simp [Split]
  | cons b bs =>
    unfold Split
    split
    · simp
    · split <;> simp

theorem Split_cons_nl (bs : Text) : Split (nl :: bs) = [] :: Split bs := by
  simp [Split]

theorem Split_cons_of_ne {b : Byte} (hb : b ≠ nl) (bs : Text) :
    ∃ l ls, Split bs = l :: ls ∧ Split (b :: bs) = (b :: l) :: ls := by
  cases h : Split bs with
  | nil => exact absurd h (Split_ne_nil bs)
  | cons l ls => exact ⟨l, ls, rfl, by simp [Split, hb, h]⟩

theorem newlineFree_of_mem_Split (t : Text) : ∀ l ∈ Split t, NewlineFree l := by
  induction t with
  | nil => intro l hl; simp [Split] at hl; subst hl; simp [NewlineFree]
  | cons b bs ih =>
    by_cases hb : b = nl
    · subst hb
      intro l hl
      rw [Split_cons_nl] at hl
      rcases List.mem_cons.1 hl with h | h
      · subst h; simp [NewlineFree]
      · exact ih l h
    · obtain ⟨l0, ls, h1, h2⟩ := Split_cons_of_ne hb bs
      intro l hl
      rw [h2] at hl
      rcases List.mem_cons.1 hl with h | h
      · subst h
        have := ih l0 (by rw [h1]; simp)
        simp only [NewlineFree, List.mem_cons, not_or] at this ⊢
        exact ⟨fun e => hb e.symm, this⟩
      · exact ih l (by rw [h1]; simp [h])

/-- Joining the pieces of `Split` gives the text back. -/
theorem joinNl_Split (t : Text) : joinNl (Split t) = t := by
  induction t with
  | nil => simp [Split, joinNl]
  | cons b bs ih =>
    by_cases hb : b = nl
    · subst hb
      rw [Split_cons_nl]
      cases h : Split bs with
      | nil => exact absurd h (Split_ne_nil bs)
      | cons l ls => rw [h] at ih; simp [joinNl, ih]
    · obtain ⟨l0, ls, h1, h2⟩ := Split_cons_of_ne hb bs
      rw [h2]
      rw [h1] at ih
      cases ls with
      | nil => simp [joinNl] at ih ⊢; exact ih
      | cons l1 ls => simp [joinNl] at ih ⊢; exact ih

theorem Split_of_newlineFree (l : Text) (h : NewlineFree l) : Split l = [l] := by
  induction l with
  | nil => simp [Split]
  | cons b bs ih =>
    simp only [NewlineFree, List.mem_cons, not_or] at h
    have hb : b ≠ nl := fun e => h.1 e.symm
    simp [Split, hb, ih h.2]

theorem Split_append_nl (l : Text) (h : NewlineFree l) (t : Text) :
    Split (l ++ nl :: t) = l :: Split t := by
  induction l with
  | nil => simp [Split]
  | cons b bs ih =>
    simp only [NewlineFree, List.mem_cons, not_or] at h
    have hb : b ≠ nl := fun e => h.1 e.symm
    simp [Split, hb, ih h.2]

/-- Splitting a join of newline-free lines gives the lines back. -/
theorem Split_joinNl (ls : List Text) (hne : ls ≠ []) (h : ∀ l ∈ ls, NewlineFree l) :
    Split (joinNl ls) = ls := by
  induction ls with
  | nil => exact absurd rfl hne
  | cons l rest ih =>
    cases rest with
    | nil => simpa [joinNl] using Split_of_newlineFree l (h l (by simp))
    | cons l1 rest =>
      simp only [joinNl]
      rw [Split_append_nl l (h l (by simp))]
      rw [ih (by simp) (fun x hx => h x (List.mem_cons_of_mem _ hx))]

theorem joinNl_cons (l : Text) (ls : List Text) : joinNl (l :: ls) = l ++ glue ls := by
  induction ls generalizing l with
  | nil => simp [joinNl, glue]
  | cons l1 ls ih => simp [joinNl, glue, ih l1]

/-! ## Facts about `read` and `write` -/

/-- On the empty file the loop of `read` never sees `io.EOF`: whatever the
fuel, `read` does not return. -/
theorem read_nil (fuel : Nat) : read fuel [] = none := by
  have h : ∀ n (f : OpenFile), readLoop n f [] = none := by
    intro n
    induction n with
    | zero => intro f; rfl
    | succ n ih => intro f; simp [readLoop, OpenFile.Read, ih]
  exact h fuel _

/-- One `Read` leaves the length of the buffer as it was. -/
theorem length_Read_data (f : OpenFile) (b : Text) : (f.Read b).data.length = b.length := by
  unfold OpenFile.Read
  split
  · rfl
  · split
    · rfl
    · simp only [List.length_append, List.length_take, List.length_drop]
      omega

/-- What the loop of `read` returns has the length of the buffer. -/
theorem length_readLoop (fuel : Nat) :
    ∀ (f : OpenFile) (data text : Text), readLoop fuel f data = some text →
      text.length = data.length := by
  induction fuel with
  | zero => intro f data text h; simp [readLoop] at h
  | succ n ih =>
    intro f data text h
    rw [readLoop] at h
    by_cases he : (f.Read data).eof = true
    · simp only [he, if_true] at h
      rw [← Option.some.inj h, length_Read_data]
    · simp only [he, if_false] at h
      rw [ih _ _ _ h, length_Read_data]

/-- With a non-empty buffer the loop of `read` ends: one `Read` more than the
bytes left in the file is enough. -/
theorem readLoop_returns (m : Nat) :
    ∀ (f : OpenFile) (data : Text), data.length ≠ 0 → f.bytes.length - f.offset ≤ m →
      ∀ k, ∃ text, readLoop (m + 1 + k) f data = some text := by
  induction m with
  | zero =>
    intro f data hd hm k
    have hle : f.bytes.length ≤ f.offset := by omega
    refine ⟨data, ?_⟩
    rw [show 0 + 1 + k = k + 1 by omega, readLoop]
    simp [OpenFile.Read, hd, hle]
  | succ m ih =>
    intro f data hd hm k
    by_cases hle : f.bytes.length ≤ f.offset
    · refine ⟨data, ?_⟩
      rw [show m + 1 + 1 + k = (m + 1 + k) + 1 by omega, readLoop]
      simp [OpenFile.Read, hd, hle]
    · have hlt : f.offset < f.bytes.length := by omega
      have hd' : (f.Read data).data.length ≠ 0 := by rw [length_Read_data]; exact hd
      have hrem : (f.Read data).file.bytes.length - (f.Read data).file.offset ≤ m := by
        simp only [OpenFile.Read, hd, hle, if_false, List.length_take, List.length_drop]
        have : 0 < maxRW := by decide
        omega
      obtain ⟨text, ht⟩ := ih (f.Read data).file (f.Read data).data hd' hrem k
      refine ⟨text, ?_⟩
      rw [show m + 1 + 1 + k = (m + 1 + k) + 1 by omega, readLoop]
      have he : (f.Read data).eof = false := by
        simp [OpenFile.Read, hd, hle]
      simp only [he, Bool.false_eq_true, if_false]
      exact ht

/-- On every non-empty file `read` returns once it has fuel for one `Read`
more than the file has bytes. -/
theorem read_returns (content : Text) (h : content ≠ []) (k : Nat) :
    ∃ text, read (content.length + 1 + k) content = some text := by
  have hlen : content.length ≠ 0 := by simpa using h
  exact readLoop_returns content.length _ _ (by simpa using hlen) (by simp) k

/-- On a non-empty file of at most `maxRW` bytes `read` returns the content of
the file: the first `Read` fills the buffer, the second reports `io.EOF`. -/
theorem read_of_ne_nil (fuel : Nat) (content : Text) (h : content ≠ [])
    (hsize : content.length ≤ maxRW) :
    read (fuel + 2) content = some content := by
  have hlen : content.length ≠ 0 := by simpa using h
  have hpos : 0 < content.length := Nat.pos_of_ne_zero hlen
  simp [read, readLoop, OpenFile.Read, hlen, List.take_of_length_le, Nat.min_eq_left hsize]

/-- What `read` returns has as many bytes as the file, and the file is not
empty. -/
theorem read_eq_some (fuel : Nat) (content text : Text) (h : read fuel content = some text) :
    text.length = content.length ∧ content ≠ [] := by
  have hne : content ≠ [] := by
    rintro rfl
    rw [read_nil] at h
    exact absurd h (by simp)
  refine ⟨?_, hne⟩
  have := length_readLoop fuel _ _ _ h
  simpa using this

/-- Writing at least as many bytes as the file holds leaves exactly the bytes
written. -/
theorem write_of_length_le (old content : Text) (h : old.length ≤ content.length) :
    write old content = content := by
  simp [write, List.drop_of_length_le h]

/-! ## The rebuild loops -/

theorem fileLoop_succ (exp : Text → Bool) (needle : Text) (data : List Text) :
    ∀ (k : Nat) (b : Text),
      fileLoop exp needle (k + 1) data b = b ++ glue (data.map (patchedLine exp needle)) := by
  induction data with
  | nil => intro k b; simp [fileLoop, glue]
  | cons s rest ih =>
    intro k b
    simp only [fileLoop, ih, List.map_cons, glue, patchedLine]
    by_cases h : exp s = true <;> simp [h]

/-- The File-scope loop builds the join of the lines, each matching line
behind the snippet. -/
theorem fileLoop_zero (exp : Text → Bool) (needle : Text) (data : List Text) (h : data ≠ []) :
    fileLoop exp needle 0 data [] = joinNl (data.map (patchedLine exp needle)) := by
  cases data with
  | nil => exact absurd rfl h
  | cons s rest =>
    simp only [fileLoop, fileLoop_succ, List.map_cons, joinNl_cons, patchedLine]
    by_cases h : exp s = true <;> simp [h]

theorem hasPos_append (a b : List Nat) (c : Nat) :
    hasPos (a ++ b) c = (hasPos a c || hasPos b c) := by
  induction a with
  | nil => simp [hasPos]
  | cons x a ih =>
    by_cases h : c = x <;> simp [hasPos, h, ih]

theorem hasPos_positionsLoop (exp : Text → Bool) (data : List Text) :
    ∀ (i : Nat) (acc : List Nat) (c : Nat),
      hasPos (positionsLoop exp i data acc) c =
        (hasPos acc c || (decide (i + 1 ≤ c) &&
          match data[c - (i + 1)]? with
          | some l => exp l
          | none => false)) := by
  induction data with
  | nil => intro i acc c; simp [positionsLoop]
  | cons s rest ih =>
    intro i acc c
    rw [positionsLoop, ih]
    rcases Nat.lt_trichotomy c (i + 1) with hlt | heq | hgt
    · have h1 : ¬ (i + 1 ≤ c) := by omega
      have h2 : ¬ (i + 1 + 1 ≤ c) := by omega
      have h3 : c ≠ i + 1 := by omega
      by_cases he : exp s = true <;> simp [he, h1, h2, h3, hasPos_append, hasPos]
    · subst heq
      by_cases he : exp s = true <;> simp [he, hasPos_append, hasPos]
    · have h1 : i + 1 ≤ c := by omega
      have h2 : i + 1 + 1 ≤ c := by omega
      have h3 : c ≠ i + 1 := by omega
      have h4 : c - (i + 1) = (c - (i + 1 + 1)) + 1 := by omega
      rw [h4, List.getElem?_cons_succ]
      by_cases he : exp s = true <;> simp [he, h1, h2, h3, hasPos_append, hasPos]

/-- Index `k` is among the recorded positions exactly when `k ≥ 1` and line
`k-1` matches. -/
theorem hasPos_positions (exp : Text → Bool) (data : List Text) (k : Nat) :
    hasPos (positions data exp) k = insertionPoint exp data k := by
  simp [positions, hasPos_positionsLoop, hasPos, insertionPoint]

theorem insertionPoint_zero (exp : Text → Bool) (lines : List Text) :
    insertionPoint exp lines 0 = false := by
  simp [insertionPoint]

theorem getElem?_length_append_cons (front rest : List Text) (x : Text) :
    (front ++ x :: rest)[front.length]? = some x := by
  induction front with
  | nil => simp
  | cons y front ih => simpa using ih

theorem insertionPoint_after (exp : Text → Bool) (front rest : List Text) (x : Text) :
    insertionPoint exp (front ++ x :: rest) (front.length + 1) = exp x := by
  simp only [insertionPoint, Nat.add_sub_cancel, getElem?_length_append_cons]
  simp

theorem declLoop_succ (exp : Text → Bool) (needle : Text) (data : List Text) (pos : List Nat)
    (hpos : ∀ k, hasPos pos k = insertionPoint exp data k) :
    ∀ (rest front : List Text) (x : Text) (b : Text), front ++ x :: rest = data →
      declLoop pos needle (front.length + 1) rest b = b ++ glue (emit exp needle (exp x) rest) := by
  intro rest
  induction rest with
  | nil => intro front x b _; simp [declLoop, emit, glue]
  | cons s rest ih =>
    intro front x b hd
    have hx : hasPos pos (front.length + 1) = exp x := by
      rw [hpos, ← hd, insertionPoint_after]
    have hrec := ih (front ++ [x]) s
    simp only [List.length_append, List.length_singleton] at hrec
    rw [declLoop, hx, hrec _ (by simpa using hd)]
    by_cases he : exp x = true <;> simp [he, emit, glue]

/-- The Decl-scope loop builds the join of the lines with the snippet before
every line whose predecessor matches. -/
theorem declLoop_zero (exp : Text → Bool) (needle : Text) (data : List Text) :
    declLoop (positions data exp) needle 0 data [] = joinNl (emit exp needle false data) := by
  cases data with
  | nil => simp [declLoop, emit, joinNl]
  | cons x rest =>
    have h0 : hasPos (positions (x :: rest) exp) 0 = false := by
      rw [hasPos_positions, insertionPoint_zero]
    have h := declLoop_succ exp needle (x :: rest) (positions (x :: rest) exp)
      (hasPos_positions exp (x :: rest)) rest [] x
    simp only [List.length_nil, List.nil_append, Nat.zero_add] at h
    rw [declLoop, h0]
    simp [h, emit, joinNl_cons]

/-- The sequence in the specification's words is the one defined by recursion
on the lines. -/
theorem declSequence_eq_emit (exp : Text → Bool) (needle : Text) (lines : List Text) :
    declSequence exp needle lines = emit exp needle false lines := by
  have key : ∀ (rest front : List Text) (x : Text), front ++ x :: rest = lines →
      ((List.range' (front.length + 1) rest.length).map fun k =>
        (if insertionPoint exp lines k then [needle] else []) ++ [lines.getD k []]).flatten
        = emit exp needle (exp x) rest := by
    intro rest
    induction rest with
    | nil => intro front x _; simp [emit]
    | cons s rest ih =>
      intro front x hd
      have hrec := ih (front ++ [x]) s (by simpa using hd)
      simp only [List.length_append, List.length_singleton] at hrec
      have hip : insertionPoint exp lines (front.length + 1) = exp x := by
        rw [← hd, insertionPoint_after]
      have hget : lines.getD (front.length + 1) [] = s := by
        have h1 := getElem?_length_append_cons (front ++ [x]) rest s
        simp only [List.length_append, List.length_singleton, List.append_assoc,
          List.singleton_append] at h1
        rw [← hd, List.getD_eq_getElem?_getD, h1]
        rfl
      simp only [List.length_cons, List.range'_succ, List.map_cons, List.flatten_cons, hrec,
        hip, hget, emit]
      by_cases he : exp x = true <;> simp [he]
  cases lines with
  | nil => simp [declSequence, emit]
  | cons x rest =>
    have h := key rest [] x rfl
    simp only [List.length_nil, Nat.zero_add] at h
    simp only [declSequence, List.length_cons, List.range_eq_range', List.range'_succ,
      List.map_cons, List.flatten_cons, insertionPoint_zero, emit]
    simp only [Nat.zero_add, h]
    simp

/-! ## `positions` is empty exactly when nothing matches -/

theorem length_positionsLoop (exp : Text → Bool) (data : List Text) :
    ∀ (i : Nat) (acc : List Nat),
      (positionsLoop exp i data acc).length = acc.length + data.countP exp := by
  induction data with
  | nil => intro i acc; simp [positionsLoop]
  | cons s rest ih =>
    intro i acc
    rw [positionsLoop, ih]
    by_cases he : exp s = true
    · simp [he, List.countP_cons_of_pos]; omega
    · simp [he]

theorem length_positions (exp : Text → Bool) (data : List Text) :
    (positions data exp).length = data.countP exp := by
  simp [positions, length_positionsLoop]

theorem positions_length_eq_zero_iff (exp : Text → Bool) (data : List Text) :
    (positions data exp).length = 0 ↔ ∀ l ∈ data, exp l = false := by
  rw [length_positions, List.countP_eq_zero]
  simp

/-! ## The rebuilt text is never shorter than the text read -/

theorem length_glue_le_map (f : Text → Text) (hf : ∀ l, l.length ≤ (f l).length)
    (ls : List Text) : (glue ls).length ≤ (glue (ls.map f)).length := by
  induction ls with
  | nil => simp [glue]
  | cons l ls ih =>
    have := hf l
    simp [glue]
    omega

theorem length_le_fileLoop (exp : Text → Bool) (needle text : Text) :
    text.length ≤ (fileLoop exp needle 0 (Split text) []).length := by
  rw [fileLoop_zero exp needle (Split text) (Split_ne_nil text)]
  have hf : ∀ l : Text, l.length ≤ (patchedLine exp needle l).length := by
    intro l
    unfold patchedLine
    split <;> simp
  conv_lhs => rw [← joinNl_Split text]
  cases h : Split text with
  | nil => simp [joinNl]
  | cons l ls =>
    have := length_glue_le_map _ hf ls
    have := hf l
    simp only [List.map_cons, joinNl_cons, List.length_append]
    omega

theorem length_glue_le_emit (exp : Text → Bool) (needle : Text) (ls : List Text) :
    ∀ prev, (glue ls).length ≤ (glue (emit exp needle prev ls)).length := by
  induction ls with
  | nil => intro prev; simp [glue, emit]
  | cons l ls ih =>
    intro prev
    have := ih (exp l)
    by_cases hp : prev = true <;> simp [emit, glue, hp] <;> omega

theorem length_le_declLoop (exp : Text → Bool) (needle text : Text) :
    text.length ≤ (declLoop (positions (Split text) exp) needle 0 (Split text) []).length := by
  rw [declLoop_zero]
  conv_lhs => rw [← joinNl_Split text]
  cases h : Split text with
  | nil => simp [joinNl]
  | cons l ls =>
    have := length_glue_le_emit exp needle ls (exp l)
    simp only [emit, joinNl_cons, List.length_append, Bool.false_eq_true, if_false,
      List.singleton_append]
    omega

/-! ## `AddToFile` once `read` has returned -/

theorem AddToFile_File_eq (fuel : Nat) (gofmt : Formatter) (content text : Text)
    (exp : Text → Bool) (needle : Text) (hread : read fuel content = some text) :
    AddToFile fuel gofmt content exp needle Scope.File =
      some { err := (gofmt (fileLoop exp needle 0 (Split text) [])).err,
             written := some (fileLoop exp needle 0 (Split text) []),
             afterWrite := fileLoop exp needle 0 (Split text) [],
             formatted := true,
             file := (gofmt (fileLoop exp needle 0 (Split text) [])).file } := by
  have hlen := (read_eq_some fuel content text hread).1
  have hw := write_of_length_le content _ (hlen ▸ length_le_fileLoop exp needle text)
  simp [AddToFile, hread, format, hw]

theorem AddToFile_Decl_eq (fuel : Nat) (gofmt : Formatter) (content text : Text)
    (exp : Text → Bool) (needle : Text) (hread : read fuel content = some text)
    (hmatch : ∃ l ∈ Split text, exp l = true) :
    AddToFile fuel gofmt content exp needle Scope.Decl =
      some { err := (gofmt (declLoop (positions (Split text) exp) needle 0 (Split text) [])).err,
             written := some (declLoop (positions (Split text) exp) needle 0 (Split text) []),
             afterWrite := declLoop (positions (Split text) exp) needle 0 (Split text) [],
             formatted := true,
             file := (gofmt (declLoop (positions (Split text) exp) needle 0 (Split text) [])).file } := by
  have hlen := (read_eq_some fuel content text hread).1
  have hw := write_of_length_le content _ (hlen ▸ length_le_declLoop exp needle text)
  have hpos : ¬ (positions (Split text) exp).length = 0 := by
    rw [positions_length_eq_zero_iff]
    obtain ⟨l, hl, he⟩ := hmatch
    intro hall
    rw [hall l hl] at he
    exact absurd he (by simp)
  have hpos2 : positions (Split text) exp ≠ [] := by simpa using hpos
  simp [AddToFile, hread, format, hw, hpos2]

theorem AddToFile_Decl_none (fuel : Nat) (gofmt : Formatter) (content text : Text)
    (exp : Text → Bool) (needle : Text) (hread : read fuel content = some text)
    (hno : ∀ l ∈ Split text, exp l = false) :
    AddToFile fuel gofmt content exp needle Scope.Decl =
      some { err := some errNoSpace, written := none, afterWrite := content,
             formatted := false, file := content } := by
  have hpos : positions (Split text) exp = [] := by
    have := (positions_length_eq_zero_iff exp (Split text)).2 hno
    simpa using this
  simp [AddToFile, hread, hpos]

/-! ## The claims on `AddToFile` -/

/-- C1, evaluated where it fails: the file `a\nb` (two lines, no final
newline), a pattern matching only the last line `b`, the snippet `x`, scope
Decl. The match is recorded (`positions` is `[2]`), no error is raised, and the
text written is the two original lines: the snippet is not appended. -/
theorem AddToFile_Decl_last_line_match :
    positions (Split [97, 10, 98]) (fun l => decide (l = [98])) = [2] ∧
    ∀ gofmt : Formatter,
      AddToFile 2 gofmt [97, 10, 98] (fun l => decide (l = [98])) [120] Scope.Decl =
        some { err := (gofmt [97, 10, 98]).err, written := some [97, 10, 98],
               afterWrite := [97, 10, 98], formatted := true,
               file := (gofmt [97, 10, 98]).file } := by
  refine ⟨by decide, fun gofmt => ?_⟩
  rw [AddToFile_Decl_eq 2 gofmt [97, 10, 98] [97, 10, 98] _ [120] (by decide)
    ⟨[98], by decide, by decide⟩]
  have h : declLoop (positions (Split [97, 10, 98]) (fun l => decide (l = [98]))) [120] 0
      (Split [97, 10, 98]) [] = [97, 10, 98] := by decide
  rw [h]

/-- C2, evaluated where it fails: the empty file, scope File. Its text is one
empty line, so a text of one line is to be written; `read` never returns on
this file, so for every fuel, pattern and snippet `AddToFile` does not return
and writes nothing. -/
theorem AddToFile_File_empty_file :
    (Split []).length = 1 ∧
    ∀ (fuel : Nat) (gofmt : Formatter) (exp : Text → Bool) (needle : Text),
      AddToFile fuel gofmt [] exp needle Scope.File = none := by
  refine ⟨by decide, fun fuel gofmt exp needle => ?_⟩
  simp [AddToFile, read_nil]

/-- Scope File on a text that `read` returns, with a newline-free snippet:
`AddToFile` returns after writing a text `out` (then handed to the formatter)
that has as many lines as the text read, and line `j` of `out` is the snippet
followed by line `j` when the pattern matches that line and is line `j`
otherwise. -/
theorem AddToFile_File_lines (fuel : Nat) (gofmt : Formatter) (content text : Text)
    (exp : Text → Bool) (needle : Text)
    (hread : read fuel content = some text) (hneedle : NewlineFree needle) :
    ∃ out : Text,
      AddToFile fuel gofmt content exp needle Scope.File =
        some { err := (gofmt out).err, written := some out, afterWrite := out,
               formatted := true, file := (gofmt out).file } ∧
      (Split out).length = (Split text).length ∧
      ∀ (j : Nat) (l : Text), (Split text)[j]? = some l →
        (Split out)[j]? = some (if exp l = true then needle ++ l else l) := by
  refine ⟨fileLoop exp needle 0 (Split text) [],
    AddToFile_File_eq fuel gofmt content text exp needle hread, ?_⟩
  have hs : Split (fileLoop exp needle 0 (Split text) []) =
      (Split text).map (patchedLine exp needle) := by
    rw [fileLoop_zero exp needle (Split text) (Split_ne_nil text)]
    apply Split_joinNl
    · simpa using Split_ne_nil text
    · intro l hl
      obtain ⟨l0, hl0, rfl⟩ := List.mem_map.1 hl
      have h0 := newlineFree_of_mem_Split text l0 hl0
      unfold patchedLine
      split
      · simp only [NewlineFree, List.mem_append, not_or] at *
        exact ⟨hneedle, h0⟩
      · exact h0
  rw [hs]
  refine ⟨by simp, fun j l hj => ?_⟩
  simp [List.getElem?_map, hj, patchedLine]

/-- The File-scope result on the file `a\nb` with a pattern matching the line
`a` and the snippet `x`. -/
theorem AddToFile_File_lines_witness :
    (read 2 [97, 10, 98] = some [97, 10, 98] ∧ NewlineFree [120]) ∧
    ∃ out : Text,
      AddToFile 2 (fun t => ⟨t, none⟩) [97, 10, 98] (fun l => decide (l = [97])) [120]
          Scope.File =
        some { err := none, written := some out, afterWrite := out,
               formatted := true, file := out } ∧
      (Split out).length = (Split [97, 10, 98]).length ∧
      ∀ (j : Nat) (l : Text), (Split [97, 10, 98])[j]? = some l →
        (Split out)[j]? = some (if decide (l = [97]) = true then [120] ++ l else l) :=
  ⟨⟨by decide, by unfold NewlineFree; decide⟩,
    AddToFile_File_lines 2 (fun t => ⟨t, none⟩) [97, 10, 98] [97, 10, 98]
      (fun l => decide (l = [97])) [120] (by decide) (by unfold NewlineFree; decide)⟩

/-- C3, evaluated where it fails: the empty file, scope Decl, a pattern that
matches no line. `read` never returns on this file, so for every fuel and
snippet `AddToFile` does not return: the no-space error is not returned. -/
theorem AddToFile_Decl_empty_file_no_match :
    (∀ l ∈ Split [], (fun _ : Text => false) l = false) ∧
    ∀ (fuel : Nat) (gofmt : Formatter) (needle : Text),
      AddToFile fuel gofmt [] (fun _ => false) needle Scope.Decl = none := by
  refine ⟨fun _ _ => rfl, fun fuel gofmt needle => ?_⟩
  simp [AddToFile, read_nil]

/-- Scope Decl on a text that `read` returns and that the pattern does not
match in any line: `AddToFile` returns the no-space error, makes no `write`
call and no `format` call, and the file content is the one it had. -/
theorem AddToFile_Decl_no_match (fuel : Nat) (gofmt : Formatter) (content text : Text)
    (exp : Text → Bool) (needle : Text)
    (hread : read fuel content = some text)
    (hno : ∀ l ∈ Split text, exp l = false) :
    AddToFile fuel gofmt content exp needle Scope.Decl =
      some { err := some errNoSpace, written := none, afterWrite := content,
             formatted := false, file := content } :=
  AddToFile_Decl_none fuel gofmt content text exp needle hread hno

/-- The Decl-scope result on the file `a\nb` with a pattern that matches
nothing. -/
theorem AddToFile_Decl_no_match_witness :
    (read 2 [97, 10, 98] = some [97, 10, 98] ∧
      ∀ l ∈ Split [97, 10, 98], (fun _ : Text => false) l = false) ∧
    AddToFile 2 (fun t => ⟨t ++ [10], none⟩) [97, 10, 98] (fun _ => false) [120] Scope.Decl =
      some { err := some errNoSpace, written := none, afterWrite := [97, 10, 98],
             formatted := false, file := [97, 10, 98] } :=
  ⟨⟨by decide, fun _ _ => rfl⟩,
    AddToFile_Decl_no_match 2 (fun t => ⟨t ++ [10], none⟩) [97, 10, 98] [97, 10, 98]
      (fun _ => false) [120] (by decide) (fun _ _ => rfl)⟩

/-- Every call of `AddToFile` that made its `write` call went on to `format`
and returned what `format` returned; the file after the `write` step is the
text written. -/
theorem AddToFile_written (fuel : Nat) (gofmt : Formatter) (content : Text)
    (exp : Text → Bool) (needle : Text) (scope : Scope) (r : Outcome) (out : Text)
    (hr : AddToFile fuel gofmt content exp needle scope = some r)
    (hw : r.written = some out) :
    content.length ≤ out.length ∧ r.afterWrite = out ∧ r.formatted = true ∧
      r.err = (gofmt out).err ∧ r.file = (gofmt out).file := by
  cases hrd : read fuel content with
  | none => simp [AddToFile, hrd] at hr
  | some text =>
    have hlen := (read_eq_some fuel content text hrd).1
    cases scope with
    | File =>
      rw [AddToFile_File_eq fuel gofmt content text exp needle hrd] at hr
      obtain rfl := Option.some.inj hr
      obtain rfl := Option.some.inj hw
      exact ⟨hlen ▸ length_le_fileLoop exp needle text, rfl, rfl, rfl, rfl⟩
    | Decl =>
      by_cases hm : ∃ l ∈ Split text, exp l = true
      · rw [AddToFile_Decl_eq fuel gofmt content text exp needle hrd hm] at hr
        obtain rfl := Option.some.inj hr
        obtain rfl := Option.some.inj hw
        exact ⟨hlen ▸ length_le_declLoop exp needle text, rfl, rfl, rfl, rfl⟩
      · have hno : ∀ l ∈ Split text, exp l = false := by
          intro l hl
          by_contra hne
          exact hm ⟨l, hl, by simpa using hne⟩
        rw [AddToFile_Decl_none fuel gofmt content text exp needle hrd hno] at hr
        obtain rfl := Option.some.inj hr
        simp at hw

/-- C4 as stated fails: on the one-line file `a`, scope File, with a formatter
that fails with status 1 and leaves the file alone, `AddToFile` writes the text
`a` and returns the formatter's error. -/
theorem AddToFile_returns_format_error :
    AddToFile 2 (fun t => ⟨t, some (GoError.Run 1)⟩) [97] (fun _ => false) [120] Scope.File =
      some { err := some (GoError.Run 1), written := some [97], afterWrite := [97],
             formatted := true, file := [97] } := by
  decide

/-- C4, amended: whenever `AddToFile` has written the reconstructed text it has
called the formatter on the file holding that text and returns exactly what the
formatter returned, nil or error; nothing is done after the formatter, so the
file is as the formatter left it and the write is not undone. -/
theorem AddToFile_returns_format_result (fuel : Nat) (gofmt : Formatter) (content : Text)
    (exp : Text → Bool) (needle : Text) (scope : Scope) (r : Outcome) (out : Text)
    (hr : AddToFile fuel gofmt content exp needle scope = some r)
    (hw : r.written = some out) :
    r.formatted = true ∧ r.err = (format gofmt out).err ∧ r.file = (format gofmt out).file ∧
      (∀ e, (format gofmt out).err = some e → r.err = some e) ∧
      ((format gofmt out).file = out → r.file = out) := by
  obtain ⟨_, _, h3, h4, h5⟩ :=
    AddToFile_written fuel gofmt content exp needle scope r out hr hw
  refine ⟨h3, h4, h5, fun e he => ?_, fun hf => ?_⟩
  · rw [h4]; exact he
  · rw [h5]; exact hf

/-- Witness of the amended C4: the run of the counterexample. -/
theorem AddToFile_returns_format_result_witness :
    (AddToFile 2 (fun t => ⟨t, some (GoError.Run 1)⟩) [97] (fun _ => false) [120] Scope.File =
        some { err := some (GoError.Run 1), written := some [97], afterWrite := [97],
               formatted := true, file := [97] } ∧
      (Outcome.mk (some (GoError.Run 1)) (some [97]) [97] true [97]).written = some [97]) ∧
    (true = true ∧ some (GoError.Run 1) = (format (fun t => ⟨t, some (GoError.Run 1)⟩) [97]).err ∧
      [97] = (format (fun t => ⟨t, some (GoError.Run 1)⟩) [97]).file ∧
      (∀ e, (format (fun t => ⟨t, some (GoError.Run 1)⟩) [97]).err = some e →
        some (GoError.Run 1) = some e) ∧
      ((format (fun t => ⟨t, some (GoError.Run 1)⟩) [97]).file = [97] → ([97] : Text) = [97])) :=
  ⟨⟨by decide, rfl⟩,
    AddToFile_returns_format_result 2 (fun t => ⟨t, some (GoError.Run 1)⟩) [97] (fun _ => false)
      [120] Scope.File (Outcome.mk (some (GoError.Run 1)) (some [97]) [97] true [97]) [97]
      (by decide) rfl⟩

/-- C5: for every file content that `read` returns, every pattern, snippet and
scope, `AddToFile` returns; when it made its `write` call with the
reconstructed text `out`, that text is at least as long as the old content, so
the write from offset 0 without truncation leaves exactly `out` in the file,
with no byte of the old content behind it; and the only case without a
`write` call is scope Decl with no matching line. -/
theorem AddToFile_write_replaces (fuel : Nat) (gofmt : Formatter) (content text : Text)
    (exp : Text → Bool) (needle : Text) (scope : Scope)
    (hread : read fuel content = some text) :
    ∃ r : Outcome, AddToFile fuel gofmt content exp needle scope = some r ∧
      (∀ out, r.written = some out →
        write content out = out ∧ r.afterWrite = out ∧ content.length ≤ out.length) ∧
      (r.written = none → scope = Scope.Decl ∧ ∀ l ∈ Split text, exp l = false) := by
  have hex : ∃ r : Outcome, AddToFile fuel gofmt content exp needle scope = some r ∧
      (r.written = none → scope = Scope.Decl ∧ ∀ l ∈ Split text, exp l = false) := by
    cases scope with
    | File =>
      exact ⟨_, AddToFile_File_eq fuel gofmt content text exp needle hread, by simp⟩
    | Decl =>
      by_cases hm : ∃ l ∈ Split text, exp l = true
      · exact ⟨_, AddToFile_Decl_eq fuel gofmt content text exp needle hread hm, by simp⟩
      · have hno : ∀ l ∈ Split text, exp l = false := by
          intro l hl
          by_contra hne
          exact hm ⟨l, hl, by simpa using hne⟩
        exact ⟨_, AddToFile_Decl_none fuel gofmt content text exp needle hread hno,
          fun _ => ⟨rfl, hno⟩⟩
  obtain ⟨r, hr, hnone⟩ := hex
  refine ⟨r, hr, fun out hw => ?_, hnone⟩
  obtain ⟨h1, h2, _⟩ := AddToFile_written fuel gofmt content exp needle scope r out hr hw
  exact ⟨write_of_length_le content out h1, h2, h1⟩

/-- Witness of C5 on the file `a\nb`, scope Decl, with a pattern matching the
line `a` and the snippet `x`. -/
theorem AddToFile_write_replaces_witness :
    read 2 [97, 10, 98] = some [97, 10, 98] ∧
    ∃ r : Outcome,
      AddToFile 2 (fun t => ⟨t, none⟩) [97, 10, 98] (fun l => decide (l = [97])) [120]
        Scope.Decl = some r ∧
      (∀ out, r.written = some out →
        write [97, 10, 98] out = out ∧ r.afterWrite = out ∧
          ([97, 10, 98] : Text).length ≤ out.length) ∧
      (r.written = none →
        Scope.Decl = Scope.Decl ∧ ∀ l ∈ Split [97, 10, 98], decide (l = [97]) = false) :=
  ⟨by decide,
    AddToFile_write_replaces 2 (fun t => ⟨t, none⟩) [97, 10, 98] [97, 10, 98]
      (fun l => decide (l = [97])) [120] Scope.Decl (by decide)⟩

/-- C6, evaluated where it fails: on the empty file `read` allocates a buffer
of length 0, every `Read` on it returns `0, nil` and never `io.EOF`, so for
every amount of fuel, pattern, snippet and scope `AddToFile` does not return:
scope File is not a call that returns having changed nothing, and scope Decl
does not return the no-space error. Moreover the empty text splits into one
empty line, which a pattern can match: `positions` is then `[1]`, not empty. -/
theorem AddToFile_empty_file :
    (∀ (fuel : Nat) (gofmt : Formatter) (exp : Text → Bool) (needle : Text) (scope : Scope),
      AddToFile fuel gofmt [] exp needle scope = none) ∧
    Split [] = [[]] ∧
    positions (Split []) (fun l => decide (l = [])) = [1] := by
  refine ⟨fun fuel gofmt exp needle scope => ?_, by decide, by decide⟩
  simp [AddToFile, read_nil]

/-- C10 as stated fails for a snippet with a newline: on the five lines `a`,
`b`, `c`, `d`, `e` with a pattern matching only `b` (index 1) and the snippet
`x\ny`, `AddToFile` with scope Decl writes a text of 7 lines, not 6. It also
fails on the empty file, whose one empty line a pattern can match: there
`AddToFile` does not return and writes nothing. -/
theorem AddToFile_Decl_newline_snippet :
    (Split [97, 10, 98, 10, 99, 10, 100, 10, 101]).length = 5 ∧
    AddToFile 2 (fun t => ⟨t, none⟩) [97, 10, 98, 10, 99, 10, 100, 10, 101]
        (fun l => decide (l = [98])) [120, 10, 121] Scope.Decl =
      some { err := none,
             written := some [97, 10, 98, 10, 120, 10, 121, 10, 99, 10, 100, 10, 101],
             afterWrite := [97, 10, 98, 10, 120, 10, 121, 10, 99, 10, 100, 10, 101],
             formatted := true,
             file := [97, 10, 98, 10, 120, 10, 121, 10, 99, 10, 100, 10, 101] } ∧
    (Split [97, 10, 98, 10, 120, 10, 121, 10, 99, 10, 100, 10, 101]).length = 7 ∧
    (∃ l ∈ Split [], (fun l : Text => decide (l = [])) l = true) ∧
    ∀ (fuel : Nat) (gofmt : Formatter) (needle : Text),
      AddToFile fuel gofmt [] (fun l => decide (l = [])) needle Scope.Decl = none := by
  refine ⟨by decide, by decide, by decide, ⟨[], by decide, by decide⟩,
    fun fuel gofmt needle => ?_⟩
  simp [AddToFile, read_nil]

/-- C10, amended: for every non-empty file of at most `maxRW` bytes (1 GiB)
with lines `l_0..l_(n-1)`, every snippet and every pattern with at least one
match, `AddToFile` with scope Decl returns, once `read` has made its two
`Read` calls, after writing the newline-join of the sequence that visits
`k = 0..n-1` and emits the snippet before `l_k` exactly when `k` is a recorded
insertion point; `k` is recorded exactly when `k ≥ 1` and `l_(k-1)` matches;
and a 5-line file whose only match is index 1 is written as the join of
`l_0, l_1, snippet, l_2, l_3, l_4`, which is these 6 lines when the snippet has
no newline. -/
theorem AddToFile_Decl_sequence (fuel : Nat) (gofmt : Formatter) (content : Text)
    (exp : Text → Bool) (needle : Text)
    (hne : content ≠ []) (hsize : content.length ≤ maxRW)
    (hmatch : ∃ l ∈ Split content, exp l = true) :
    ∃ r : Outcome, AddToFile (fuel + 2) gofmt content exp needle Scope.Decl = some r ∧
      r.written = some (joinNl (declSequence exp needle (Split content))) ∧
      (∀ k, hasPos (positions (Split content) exp) k = true ↔
        1 ≤ k ∧ ∃ l, (Split content)[k - 1]? = some l ∧ exp l = true) ∧
      (∀ l0 l1 l2 l3 l4 : Text, Split content = [l0, l1, l2, l3, l4] →
        exp l0 = false → exp l1 = true → exp l2 = false → exp l3 = false → exp l4 = false →
        r.written = some (joinNl [l0, l1, needle, l2, l3, l4]) ∧
        (NewlineFree needle →
          Split (joinNl [l0, l1, needle, l2, l3, l4]) = [l0, l1, needle, l2, l3, l4])) := by
  have hread := read_of_ne_nil fuel content hne hsize
  refine ⟨_, AddToFile_Decl_eq (fuel + 2) gofmt content content exp needle hread hmatch,
    ?_, ?_, ?_⟩
  · simp only [declLoop_zero, declSequence_eq_emit]
  · intro k
    rw [hasPos_positions, insertionPoint]
    cases h : (Split content)[k - 1]? with
    | none => simp
    | some l => simp
  · intro l0 l1 l2 l3 l4 hs h0 h1 h2 h3 h4
    refine ⟨?_, fun hn => ?_⟩
    · simp only [declLoop_zero, hs, emit, h0, h1, h2, h3]
      simp
    · apply Split_joinNl _ (by simp)
      have hl := newlineFree_of_mem_Split content
      rw [hs] at hl
      intro l hmem
      simp only [List.mem_cons, List.mem_singleton, List.not_mem_nil, or_false] at hmem
      rcases hmem with rfl | rfl | rfl | rfl | rfl | rfl
      · exact hl _ (by simp)
      · exact hl _ (by simp)
      · exact hn
      · exact hl _ (by simp)
      · exact hl _ (by simp)
      · exact hl _ (by simp)

/-- Witness of the amended C10 on the five lines `a`, `b`, `c`, `d`, `e` with a
pattern matching only `b` and the snippet `x`. -/
theorem AddToFile_Decl_sequence_witness :
    (([97, 10, 98, 10, 99, 10, 100, 10, 101] : Text) ≠ [] ∧
      ([97, 10, 98, 10, 99, 10, 100, 10, 101] : Text).length ≤ maxRW ∧
      ∃ l ∈ Split [97, 10, 98, 10, 99, 10, 100, 10, 101], decide (l = [98]) = true) ∧
    ∃ r : Outcome,
      AddToFile (0 + 2) (fun t => ⟨t, none⟩) [97, 10, 98, 10, 99, 10, 100, 10, 101]
        (fun l => decide (l = [98])) [120] Scope.Decl = some r ∧
      r.written = some (joinNl (declSequence (fun l => decide (l = [98])) [120]
        (Split [97, 10, 98, 10, 99, 10, 100, 10, 101]))) ∧
      (∀ k, hasPos (positions (Split [97, 10, 98, 10, 99, 10, 100, 10, 101])
          (fun l => decide (l = [98]))) k = true ↔
        1 ≤ k ∧ ∃ l, (Split [97, 10, 98, 10, 99, 10, 100, 10, 101])[k - 1]? = some l ∧
          decide (l = [98]) = true) ∧
      (∀ l0 l1 l2 l3 l4 : Text,
        Split [97, 10, 98, 10, 99, 10, 100, 10, 101] = [l0, l1, l2, l3, l4] →
        decide (l0 = [98]) = false → decide (l1 = [98]) = true → decide (l2 = [98]) = false →
        decide (l3 = [98]) = false → decide (l4 = [98]) = false →
        r.written = some (joinNl [l0, l1, [120], l2, l3, l4]) ∧
        (NewlineFree [120] →
          Split (joinNl [l0, l1, [120], l2, l3, l4]) = [l0, l1, [120], l2, l3, l4])) :=
  ⟨⟨by decide, by decide, [98], by decide, by decide⟩,
    AddToFile_Decl_sequence 0 (fun t => ⟨t, none⟩) [97, 10, 98, 10, 99, 10, 100, 10, 101]
      (fun l => decide (l = [98])) [120] (by decide) (by decide)
      ⟨[98], by decide, by decide⟩⟩

/-! ## `createBaseDirectories` -/

/-- C9, evaluated where it fails: when every `os.Mkdir` fails with permission
denied, `createBaseDirectories` returns nil and `Deploy` goes on to the module
copy (and, when that succeeds, to the file writes). An already existing
directory is treated the same way, and only a not-exist error is returned. -/
theorem createBaseDirectories_permission_denied (DatabaseDir : String)
    (moveModules createFiles : Option GoError) :
    createBaseDirectories (fun _ => some (GoError.Path Errno.EACCES)) DatabaseDir = none ∧
    (Deploy (fun _ => some (GoError.Path Errno.EACCES)) DatabaseDir moveModules
      createFiles).modules = true ∧
    (Deploy (fun _ => some (GoError.Path Errno.EACCES)) DatabaseDir none createFiles).files
      = true ∧
    createBaseDirectories (fun _ => some (GoError.Path Errno.EEXIST)) DatabaseDir = none ∧
    createBaseDirectories (fun _ => some (GoError.Path Errno.ENOENT)) DatabaseDir
      = some (GoError.Path Errno.ENOENT) := by
  have h : createBaseDirectories (fun _ => some (GoError.Path Errno.EACCES)) DatabaseDir
      = none := by
    simp [createBaseDirectories, IsNotExist]
  refine ⟨h, ?_, ?_, ?_, ?_⟩
  · simp only [Deploy, h]
    cases moveModules <;> cases createFiles <;> rfl
  · simp only [Deploy, h]
    cases createFiles <;> rfl
  · simp [createBaseDirectories, IsNotExist]
  · simp [createBaseDirectories, IsNotExist]

end file_manager

namespace generator

open file_manager (GoError Errno)

/-! ## The loop over the generated files -/

theorem materialize_Entistor (st : State) (file : File) (c : Calls) (owner : String) :
    (materialize st file c).Entistor owner =
      if owner = file.Owner ∧ c.create = none then some file.Path else st.Entistor owner := by
  unfold materialize
  cases hc : c.create <;> cases hw : c.write <;> cases hm : c.mkdir <;>
    cases hs : c.statNotExist <;> by_cases ho : owner = file.Owner <;>
    simp [Entistor.set, ho]

theorem materialize_written (st : State) (file : File) (c : Calls) :
    (materialize st file c).written =
      st.written ++ (if c.create.isNone && c.write.isNone then [file.Path ++ "/" ++ file.Name]
        else []) := by
  unfold materialize
  cases hc : c.create <;> cases hw : c.write <;> cases hm : c.mkdir <;>
    cases hs : c.statNotExist <;> simp

theorem materialize_removed (st : State) (file : File) (c : Calls) :
    (materialize st file c).removed = st.removed := by
  unfold materialize
  cases hc : c.create <;> cases hw : c.write <;> cases hm : c.mkdir <;>
    cases hs : c.statNotExist <;> simp

theorem lastCreated_cons (owner : String) (fc : File × Calls) (rest : List (File × Calls)) :
    lastCreated owner (fc :: rest) =
      match lastCreated owner rest with
      | some f => some f
      | none => if owner = fc.1.Owner ∧ fc.2.create = none then some fc.1 else none := by
  unfold lastCreated
  rw [List.filter_cons]
  by_cases hk : (decide (fc.1.Owner = owner) && fc.2.create.isNone) = true
  · have hk2 : owner = fc.1.Owner ∧ fc.2.create = none := by
      simp only [Bool.and_eq_true, decide_eq_true_eq, Option.isNone_iff_eq_none] at hk
      exact ⟨hk.1.symm, hk.2⟩
    rw [if_pos hk, if_pos hk2]
    cases List.filter (fun fc : File × Calls =>
        decide (fc.1.Owner = owner) && fc.2.create.isNone) rest with
    | nil => rfl
    | cons y ys => rw [List.getLast?_cons_cons]; rfl
  · have hk2 : ¬ (owner = fc.1.Owner ∧ fc.2.create = none) := by
      intro h
      apply hk
      simp [h.1.symm, h.2]
    rw [if_neg hk, if_neg hk2]
    cases (List.filter (fun fc : File × Calls =>
        decide (fc.1.Owner = owner) && fc.2.create.isNone) rest).getLast? <;> rfl

theorem materializeAll_Entistor (files : List (File × Calls)) :
    ∀ (st : State) (owner : String),
      (materializeAll st files).Entistor owner =
        match lastCreated owner files with
        | some f => some f.Path
        | none => st.Entistor owner := by
  induction files with
  | nil => intro st owner; simp [materializeAll, lastCreated]
  | cons fc rest ih =>
    intro st owner
    obtain ⟨file, c⟩ := fc
    rw [materializeAll, ih, materialize_Entistor, lastCreated_cons]
    cases lastCreated owner rest with
    | some f => rfl
    | none =>
      by_cases hk : owner = file.Owner ∧ c.create = none
      · simp only [hk, and_self, if_true]
      · simp only [hk, if_false]

theorem materializeAll_written (files : List (File × Calls)) :
    ∀ st : State, (materializeAll st files).written = st.written ++ writtenFiles files := by
  induction files with
  | nil => intro st; simp [materializeAll, writtenFiles]
  | cons fc rest ih =>
    intro st
    obtain ⟨file, c⟩ := fc
    rw [materializeAll, ih, materialize_written]
    by_cases hk : (c.create.isNone && c.write.isNone) = true
    · simp [writtenFiles, List.filter_cons, hk]
    · simp [writtenFiles, List.filter_cons, hk]

theorem materializeAll_removed (files : List (File × Calls)) :
    ∀ st : State, (materializeAll st files).removed = st.removed := by
  induction files with
  | nil => intro st; rfl
  | cons fc rest ih =>
    intro st
    obtain ⟨file, c⟩ := fc
    rw [materializeAll, ih, materialize_removed]

theorem removeAll_removed (dels : List String) :
    ∀ st : State, (removeAll st dels).removed = st.removed ++ dels := by
  induction dels with
  | nil => intro st; simp [removeAll]
  | cons d rest ih => intro st; simp [removeAll, ih]

theorem removeAll_processError (dels : List String) :
    ∀ st : State, (removeAll st dels).processError = st.processError := by
  induction dels with
  | nil => intro st; rfl
  | cons d rest ih => intro st; simp [removeAll, ih]

/-! ## The claims on `Generate` -/

theorem lastCreated_eq_none (owner : String) (files : List (File × Calls))
    (h : ∀ fc ∈ files, fc.1.Owner = owner → fc.2.create ≠ none) :
    lastCreated owner files = none := by
  have hf : files.filter
      (fun fc : File × Calls => decide (fc.1.Owner = owner) && fc.2.create.isNone) = [] := by
    rw [List.filter_eq_nil_iff]
    intro fc hfc hk
    simp only [Bool.and_eq_true, decide_eq_true_eq, Option.isNone_iff_eq_none] at hk
    exact h fc hfc hk.1 hk.2
  simp [lastCreated, hf]

theorem lastCreated_append_cons (front back : List (File × Calls)) (fc : File × Calls)
    (hc : fc.2.create = none)
    (hback : ∀ x ∈ back, x.1.Owner = fc.1.Owner → x.2.create ≠ none) :
    lastCreated fc.1.Owner (front ++ fc :: back) = some fc.1 := by
  have hb : back.filter
      (fun x : File × Calls => decide (x.1.Owner = fc.1.Owner) && x.2.create.isNone) = [] := by
    rw [List.filter_eq_nil_iff]
    intro x hx hk
    simp only [Bool.and_eq_true, decide_eq_true_eq, Option.isNone_iff_eq_none] at hk
    exact hback x hx hk.1 hk.2
  have hk : (decide (fc.1.Owner = fc.1.Owner) && fc.2.create.isNone) = true := by
    simp [hc]
  unfold lastCreated
  rw [List.filter_append, List.filter_cons, if_pos hk, hb, List.getLast?_append_cons,
    List.getLast?_singleton]
  rfl

/-- C7 as stated fails, in both halves. First run: one generated file whose
`os.Create` succeeds and whose `f.Write` fails is recorded against its owner
although nothing was written. Second run: two files of one owner in two
directories, both written; the ledger object holds the second `Path` only, and
the `Path` of the first written file is recorded under no owner. -/
theorem afterLoop_ledger_differs_from_written :
    ((afterLoop { newRegister := none, parse := none, validation := none,
                  files := [({ Owner := "User", Path := "/db/user", Name := "user.go",
                               Src := "package user" },
                             { statNotExist := false, mkdir := none, create := none,
                               write := some (GoError.Path (Errno.other 28)) })],
                  ledger := [], persist := none, AutoDelete := false }).Entistor "User"
        = some "/db/user" ∧
      (afterLoop { newRegister := none, parse := none, validation := none,
                   files := [({ Owner := "User", Path := "/db/user", Name := "user.go",
                                Src := "package user" },
                              { statNotExist := false, mkdir := none, create := none,
                                write := some (GoError.Path (Errno.other 28)) })],
                   ledger := [], persist := none, AutoDelete := false }).written = []) ∧
    ((afterLoop { newRegister := none, parse := none, validation := none,
                  files := [({ Owner := "User", Path := "/db/a", Name := "a.go", Src := "" },
                             { statNotExist := false, mkdir := none, create := none,
                               write := none }),
                            ({ Owner := "User", Path := "/db/b", Name := "b.go", Src := "" },
                             { statNotExist := false, mkdir := none, create := none,
                               write := none })],
                  ledger := [], persist := none, AutoDelete := false }).Entistor "User"
        = some "/db/b" ∧
      (afterLoop { newRegister := none, parse := none, validation := none,
                   files := [({ Owner := "User", Path := "/db/a", Name := "a.go", Src := "" },
                              { statNotExist := false, mkdir := none, create := none,
                                write := none }),
                             ({ Owner := "User", Path := "/db/b", Name := "b.go", Src := "" },
                              { statNotExist := false, mkdir := none, create := none,
                                write := none })],
                   ledger := [], persist := none, AutoDelete := false }).written
        = ["/db/a/a.go", "/db/b/b.go"] ∧
      ∀ owner : String,
        (afterLoop { newRegister := none, parse := none, validation := none,
                     files := [({ Owner := "User", Path := "/db/a", Name := "a.go", Src := "" },
                                { statNotExist := false, mkdir := none, create := none,
                                  write := none }),
                               ({ Owner := "User", Path := "/db/b", Name := "b.go", Src := "" },
                                { statNotExist := false, mkdir := none, create := none,
                                  write := none })],
                     ledger := [], persist := none, AutoDelete := false }).Entistor owner
          ≠ some "/db/a") := by
  refine ⟨⟨?_, ?_⟩, ⟨?_, ?_, fun owner => ?_⟩⟩
  · simp [afterLoop, beforeLoop, materializeAll, materialize, Entistor.set]
  · simp [afterLoop, beforeLoop, materializeAll, materialize]
  · simp [afterLoop, beforeLoop, materializeAll, materialize, Entistor.set]
  · simp [afterLoop, beforeLoop, materializeAll, materialize]
  · by_cases ho : owner = "User" <;>
      simp [afterLoop, beforeLoop, materializeAll, materialize, Entistor.set, ho]

/-- C7, amended: after the loop over the generated files the ledger object
holds for every owner the `Path` of the last file of that owner whose
`os.Create` succeeded and nothing for an owner none of whose files was
created; a created file after which no file of its owner is created is
recorded with its `Path` whether or not its write succeeded; the files written
are exactly those whose `os.Create` and `f.Write` both succeeded, and the owner
of each of them has an entry. -/
theorem afterLoop_ledger (run : Run) (owner : String) :
    (afterLoop run).Entistor owner = (lastCreated owner run.files).map (fun f => f.Path) ∧
    ((∀ fc ∈ run.files, fc.1.Owner = owner → fc.2.create ≠ none) →
      (afterLoop run).Entistor owner = none) ∧
    (∀ (front back : List (File × Calls)) (fc : File × Calls),
      run.files = front ++ fc :: back → fc.2.create = none →
      (∀ x ∈ back, x.1.Owner = fc.1.Owner → x.2.create ≠ none) →
      (afterLoop run).Entistor fc.1.Owner = some fc.1.Path) ∧
    (afterLoop run).written = writtenFiles run.files ∧
    ∀ fc ∈ run.files, fc.2.create = none → fc.2.write = none →
      (fc.1.Path ++ "/" ++ fc.1.Name) ∈ (afterLoop run).written ∧
      ∃ path, (afterLoop run).Entistor fc.1.Owner = some path := by
  have hE : ∀ o, (afterLoop run).Entistor o = (lastCreated o run.files).map (fun f => f.Path) := by
    intro o
    rw [afterLoop, materializeAll_Entistor]
    cases lastCreated o run.files <;> simp [beforeLoop]
  have hW : (afterLoop run).written = writtenFiles run.files := by
    rw [afterLoop, materializeAll_written]
    simp [beforeLoop]
  refine ⟨hE owner, fun hnone => ?_, fun front back fc hfiles hc hback => ?_, hW,
    fun fc hfc hc hw => ⟨?_, ?_⟩⟩
  · rw [hE, lastCreated_eq_none owner run.files hnone]
    rfl
  · rw [hE, hfiles, lastCreated_append_cons front back fc hc hback]
    rfl
  · rw [hW, writtenFiles]
    exact List.mem_map.2 ⟨fc, List.mem_filter.2 ⟨hfc, by simp [hc, hw]⟩, rfl⟩
  · rw [hE]
    have hmem : fc ∈ run.files.filter
        (fun x : File × Calls => decide (x.1.Owner = fc.1.Owner) && x.2.create.isNone) :=
      List.mem_filter.2 ⟨hfc, by simp [hc]⟩
    unfold lastCreated
    cases hl : (run.files.filter
        (fun x : File × Calls => decide (x.1.Owner = fc.1.Owner) && x.2.create.isNone)).getLast? with
    | none =>
      rw [List.getLast?_eq_none_iff] at hl
      rw [hl] at hmem
      exact absurd hmem (List.not_mem_nil _)
    | some y => exact ⟨y.1.Path, rfl⟩

/-- With a `Save` that persists, `Generate` hands to `os.RemoveAll` the orphans
of the run when the auto-delete option is on, and nothing when it is off. -/
theorem Generate_removed_of_persisted (run : Run) (hp : run.persist = none) :
    (Generate run).1.removed =
      if run.AutoDelete = true then orphans run.ledger (afterLoop run).Entistor else [] := by
  have hrem : (afterLoop run).removed = [] := by
    rw [afterLoop, materializeAll_removed]
    rfl
  unfold Generate
  cases ha : run.AutoDelete <;> simp [Save, hp, removeAll_removed, hrem]

/-- A run whose old ledger holds a path of an owner that is gone, with the
auto-delete option on and a `Save` that persists: the orphan is removed. -/
theorem Generate_removes_orphan_of_persisted :
    (Generate { newRegister := none, parse := none, validation := none, files := [],
                ledger := [("Old", "/db/old")], persist := none,
                AutoDelete := true }).1.removed = ["/db/old"] := by
  simp [Generate, Save, orphans, afterLoop, beforeLoop, materializeAll, removeAll]

/-- C8: in `Generate`, whenever `Save` returns an error no path is handed to
`os.RemoveAll`, with the auto-delete option on or off; the error is stored
under the `register` section and `Generate` returns a non-nil error. -/
theorem Generate_failed_Save_removes_nothing (run : Run) (err : GoError)
    (hsave : (Save run.ledger (afterLoop run).Entistor run.persist).err = some err) :
    (Generate run).1.removed = [] ∧
    (Generate run).1.processError genSection.register = some err ∧
    (Generate run).2 ≠ none := by
  have hrem : (afterLoop run).removed = [] := by
    rw [afterLoop, materializeAll_removed]
    rfl
  have hp : run.persist = some err := by
    cases h : run.persist with
    | none => simp [Save, h] at hsave
    | some e => simpa [Save, h] using hsave
  have hpe : (Generate run).1.processError genSection.register = some err := by
    unfold Generate
    cases ha : run.AutoDelete <;>
      simp [Save, hp, removeAll, processError.set]
  refine ⟨?_, hpe, ?_⟩
  · unfold Generate
    cases ha : run.AutoDelete <;> simp [Save, hp, removeAll, hrem]
  · have h2 : (Generate run).2 = errorConverting (Generate run).1.processError := rfl
    rw [h2]
    unfold errorConverting
    have hmem : genSection.register ∈
        [genSection.parsing, genSection.validating, genSection.templating,
          genSection.register].filter fun s => ((Generate run).1.processError s).isSome :=
      List.mem_filter.2 ⟨by simp, by simp [hpe]⟩
    have hne : [genSection.parsing, genSection.validating, genSection.templating,
        genSection.register].filter (fun s => ((Generate run).1.processError s).isSome) ≠ [] :=
      List.ne_nil_of_mem hmem
    simp only [hne, if_false]
    simp

/-- Witness of C8: a run whose old ledger holds a path of an owner that is
gone, with the auto-delete option on and a `Save` that fails to persist. -/
theorem Generate_failed_Save_removes_nothing_witness :
    (Save [("Old", "/db/old")]
        (afterLoop { newRegister := none, parse := none, validation := none, files := [],
                     ledger := [("Old", "/db/old")],
                     persist := some (GoError.Path (Errno.other 28)),
                     AutoDelete := true }).Entistor
        (some (GoError.Path (Errno.other 28)))).err = some (GoError.Path (Errno.other 28)) ∧
    ((Generate { newRegister := none, parse := none, validation := none, files := [],
                 ledger := [("Old", "/db/old")],
                 persist := some (GoError.Path (Errno.other 28)),
                 AutoDelete := true }).1.removed = [] ∧
      (Generate { newRegister := none, parse := none, validation := none, files := [],
                  ledger := [("Old", "/db/old")],
                  persist := some (GoError.Path (Errno.other 28)),
                  AutoDelete := true }).1.processError genSection.register
        = some (GoError.Path (Errno.other 28)) ∧
      (Generate { newRegister := none, parse := none, validation := none, files := [],
                  ledger := [("Old", "/db/old")],
                  persist := some (GoError.Path (Errno.other 28)),
                  AutoDelete := true }).2 ≠ none) :=
  ⟨rfl,
    Generate_failed_Save_removes_nothing
      { newRegister := none, parse := none, validation := none, files := [],
        ledger := [("Old", "/db/old")], persist := some (GoError.Path (Errno.other 28)),
        AutoDelete := true }
      (GoError.Path (Errno.other 28)) rfl⟩

end generator
